import Mathlib

/-!
Shallow embedding of the `scopeguard` crate (src/lib.rs).

The crate defines one type, `Guard<T, F> { __dropfn: F, __value: T }`
with `F: FnMut(&mut T)`, a constructor `guard(v, dropfn)`, `Deref` and
`DerefMut` impls exposing `__value`, a `Drop` impl whose body is
`(self.__dropfn)(&mut self.__value)`, and a `defer!` sugar expanding to
`let _guard = $crate::guard((), |_| $e);`.

Embedding choices:
- An `FnMut(&mut T)` closure mutates the held value and the environment it
  captured (including its own captured state).  We make that environment an
  explicit state type `σ` and model the closure as a pure function
  `T → σ → T × σ`.
- Rust's ownership and drop rules are modelled by an explicit scope
  semantics: a scope body is a list of statements (`ScopeStep`); declaring a
  guard pushes it on the stack of locals, and leaving the scope — whether by
  falling off the end, by `return`, or by a propagating panic — drops the
  stacked guards in reverse declaration order.  This mirrors Rust's drop
  order for local bindings, which is what the `Drop for Guard` impl hooks
  into.
- A cleanup that can itself fail (panic inside the drop closure) is
  modelled with `Except`: see `GuardE` below.
-/

namespace Scopeguard

universe u v

/-- `Guard` is a scope guard that may own a protected value.  Mirrors
`struct Guard<T, F> { __dropfn: F, __value: T }` with the closure's captured
environment made explicit as `σ`. -/
structure Guard (T : Type u) (σ : Type v) where
  __dropfn : T → σ → T × σ
  __value : T

/-- `guard(v, dropfn)`: create a new `Guard` owning `v` and with deferred
closure `dropfn`.  Mirrors `pub fn guard<T, F>(v: T, dropfn: F)`. -/
def guard {T : Type u} {σ : Type v} (v : T) (dropfn : T → σ → T × σ) :
    Guard T σ :=
  ⟨dropfn, v⟩

/-- `Deref for Guard`: read access, returns the held value. -/
def Guard.deref {T : Type u} {σ : Type v} (g : Guard T σ) : T :=
  g.__value

/-- `DerefMut for Guard`: write access.  A caller holding `&mut T` can apply
an arbitrary in-place mutation `m` to the held value; nothing else of the
guard changes. -/
def Guard.deref_mut {T : Type u} {σ : Type v} (g : Guard T σ) (m : T → T) :
    Guard T σ :=
  { g with __value := m g.__value }

/-- `Drop for Guard`: the destructor body is exactly
`(self.__dropfn)(&mut self.__value)` — it calls the closure once with
mutable access to the held value, and returns the final value and
environment. -/
def Guard.drop {T : Type u} {σ : Type v} (g : Guard T σ) (s : σ) : T × σ :=
  g.__dropfn g.__value s

/-- One access to a live guard: a read through `Deref` or a write (in-place
mutation) through `DerefMut`.  These are the only operations the crate
exposes on a live guard; in particular there is no cancel/defuse
operation. -/
inductive GuardOp (T : Type u) where
  | read
  | write (m : T → T)

/-- Effect of one access on the guard and the environment.  A read changes
nothing; a write mutates the held value in place.  Neither touches the
environment `σ`, i.e. neither invokes the cleanup closure. -/
def GuardOp.apply {T : Type u} {σ : Type v} (g : Guard T σ) (s : σ) :
    GuardOp T → Guard T σ × σ
  | .read => (g, s)
  | .write m => (g.deref_mut m, s)

/-- Run a sequence of accesses against a live guard. -/
def runOps {T : Type u} {σ : Type v} (g : Guard T σ) (s : σ) :
    List (GuardOp T) → Guard T σ × σ
  | [] => (g, s)
  | op :: rest =>
      let p := GuardOp.apply g s op
      runOps p.1 p.2 rest

/-- The value obtained by folding the writes of an access sequence over the
initial value: the value the guard holds after those accesses. -/
def writesFold {T : Type u} (v : T) : List (GuardOp T) → T
  | [] => v
  | .read :: rest => writesFold v rest
  | .write m :: rest => writesFold (m v) rest

/-- A guard's whole lifetime: construct it from `(v, dropfn)`, perform the
accesses `ops`, then destroy it.  Returns the final held value and
environment produced by the single destructor call. -/
def lifetime {T : Type u} {σ : Type v} (v : T) (dropfn : T → σ → T × σ)
    (ops : List (GuardOp T)) (s : σ) : T × σ :=
  let p := runOps (guard v dropfn) s ops
  p.1.drop p.2

/-- Instrument a cleanup closure with an invocation counter: same behaviour
on the `σ` component, and the counter goes up by one each time the closure
is actually called. -/
def counting {T : Type u} {σ : Type v} (f : T → σ → T × σ) :
    T → σ × Nat → T × (σ × Nat) :=
  fun t p =>
    let q := f t p.1
    (q.1, (q.2, p.2 + 1))

theorem runOps_state {T : Type u} {σ : Type v} (g : Guard T σ) (s : σ)
    (ops : List (GuardOp T)) : (runOps g s ops).2 = s := by
  induction ops generalizing g s with
  | nil => rfl
  | cons op rest ih =>
      cases op <;> simp [runOps, GuardOp.apply, ih]

theorem runOps_dropfn {T : Type u} {σ : Type v} (g : Guard T σ) (s : σ)
    (ops : List (GuardOp T)) : (runOps g s ops).1.__dropfn = g.__dropfn := by
  induction ops generalizing g s with
  | nil => rfl
  | cons op rest ih =>
      cases op <;> simp [runOps, GuardOp.apply, Guard.deref_mut, ih]

theorem runOps_value {T : Type u} {σ : Type v} (g : Guard T σ) (s : σ)
    (ops : List (GuardOp T)) :
    (runOps g s ops).1.__value = writesFold g.__value ops := by
  induction ops generalizing g with
  | nil => rfl
  | cons op rest ih =>
      cases op <;>
        simp [runOps, GuardOp.apply, Guard.deref_mut, writesFold, ih]

example : writesFold 3 [GuardOp.read, GuardOp.write (· + 1)] = 4 := by rfl
example : lifetime 0 (fun _ s => (1000, s)) [] () = (1000, ()) := by rfl

/-- One statement of a scope body.  `declare` is a `let`-binding of a fresh
guard (`let g = guard(v, f);`), `act` is any other statement mutating the
environment, `ret` is an early `return`, and `panicked` is a statement that
raises a propagating failure (panic).  The language offers no way to cancel
or defuse a declared guard. -/
inductive ScopeStep (T : Type u) (σ : Type v) where
  | declare (v : T) (f : T → σ → T × σ)
  | act (f : σ → σ)
  | ret
  | panicked

/-- Drop a stack of local guards, most recently declared first (Rust drops
locals in reverse declaration order).  Each drop is one call of that
guard's cleanup closure with mutable access to its held value. -/
def dropAll {T : Type u} {σ : Type v} : List (Guard T σ) → σ → σ
  | [], s => s
  | g :: rest, s => dropAll rest (g.drop s).2

/-- Execute a scope body: process statements in order, pushing declared
guards onto the stack of locals; stop at the first `ret` or `panicked`
(the remaining statements are never executed).  Returns the stack of
guards declared so far and the environment. -/
def runScopeAux {T : Type u} {σ : Type v} :
    List (ScopeStep T σ) → List (Guard T σ) → σ → List (Guard T σ) × σ
  | [], stack, s => (stack, s)
  | .declare v f :: rest, stack, s => runScopeAux rest (guard v f :: stack) s
  | .act f :: rest, stack, s => runScopeAux rest stack (f s)
  | .ret :: _, stack, s => (stack, s)
  | .panicked :: _, stack, s => (stack, s)

/-- Run a scope to completion: execute the body, then — on every exit path,
whether the body fell off the end, returned early, or panicked — drop the
declared guards in reverse declaration order. -/
def runScope {T : Type u} {σ : Type v} (steps : List (ScopeStep T σ))
    (s : σ) : σ :=
  let p := runScopeAux steps [] s
  dropAll p.1 p.2

/-- A statement that is neither a `return` nor a panic. -/
def ScopeStep.noExit {T : Type u} {σ : Type v} : ScopeStep T σ → Bool
  | .ret => false
  | .panicked => false
  | _ => true

/-- Lift a guard to an environment carrying an extra invocation counter the
guard never touches. -/
def liftGuard {T : Type u} {σ : Type v} (g : Guard T σ) :
    Guard T (σ × Nat) :=
  ⟨fun t p => let q := g.__dropfn t p.1; (q.1, (q.2, p.2)), g.__value⟩

/-- Lift a scope statement to an environment carrying an extra invocation
counter the statement never touches. -/
def liftStep {T : Type u} {σ : Type v} : ScopeStep T σ → ScopeStep T (σ × Nat)
  | .declare v f => .declare v (fun t p => let q := f t p.1; (q.1, (q.2, p.2)))
  | .act f => .act (fun p => (f p.1, p.2))
  | .ret => .ret
  | .panicked => .panicked

theorem dropAll_lift {T : Type u} {σ : Type v} (stack : List (Guard T σ))
    (s : σ) (n : Nat) :
    dropAll (stack.map liftGuard) (s, n) = (dropAll stack s, n) := by
  induction stack generalizing s with
  | nil => rfl
  | cons g rest ih => simp [dropAll, Guard.drop, liftGuard, ih]

theorem runScopeAux_lift {T : Type u} {σ : Type v}
    (steps : List (ScopeStep T σ)) (stack : List (Guard T σ)) (s : σ)
    (n : Nat) :
    runScopeAux (steps.map liftStep) (stack.map liftGuard) (s, n) =
      ((runScopeAux steps stack s).1.map liftGuard,
        ((runScopeAux steps stack s).2, n)) := by
  induction steps generalizing stack s with
  | nil => rfl
  | cons st rest ih =>
      cases st with
      | declare v f => exact ih (guard v f :: stack) s
      | act f => exact ih stack (f s)
      | ret => rfl
      | panicked => rfl

theorem runScopeAux_append_noExit {T : Type u} {σ : Type v}
    (pre rest : List (ScopeStep T σ)) (stack : List (Guard T σ)) (s : σ)
    (h : ∀ st ∈ pre, st.noExit = true) :
    runScopeAux (pre ++ rest) stack s =
      runScopeAux rest (runScopeAux pre stack s).1
        (runScopeAux pre stack s).2 := by
  induction pre generalizing stack s with
  | nil => rfl
  | cons st pre' ih =>
      cases st with
      | declare v f =>
          simp only [List.cons_append, runScopeAux]
          exact ih _ _ (fun st hst => h st (List.mem_cons_of_mem _ hst))
      | act f =>
          simp only [List.cons_append, runScopeAux]
          exact ih _ _ (fun st hst => h st (List.mem_cons_of_mem _ hst))
      | ret =>
          exact absurd (h _ (List.mem_cons_self _ _)) (by simp [ScopeStep.noExit])
      | panicked =>
          exact absurd (h _ (List.mem_cons_self _ _)) (by simp [ScopeStep.noExit])

theorem runScopeAux_state_stack_irrel {T : Type u} {σ : Type v}
    (steps : List (ScopeStep T σ)) (stack stack' : List (Guard T σ))
    (s : σ) :
    (runScopeAux steps stack s).2 = (runScopeAux steps stack' s).2 := by
  induction steps generalizing stack stack' s with
  | nil => rfl
  | cons st rest ih =>
      cases st with
      | declare v f => exact ih (guard v f :: stack) (guard v f :: stack') s
      | act f => exact ih stack stack' (f s)
      | ret => rfl
      | panicked => rfl

theorem liftStep_noExit {T : Type u} {σ : Type v} (st : ScopeStep T σ) :
    (liftStep st).noExit = st.noExit := by
  cases st <;> rfl

/-- The expansion of `defer!($e)`, namely `let _guard = $crate::guard((), |_| $e);`:
the guard built there holds the unit value and its closure ignores the
`&mut ()` argument and evaluates `e` against the captured environment. -/
def deferGuard {σ : Type v} (e : σ → σ) : Guard Unit σ :=
  guard () (fun _ s => ((), e s))

/-- Modelled from the spec: the guard the spec says `deferAction(e)` is
sugar for — "a guard holding the unit placeholder value whose cleanup runs
`e`" — written from the spec's words, to be compared with `deferGuard`. -/
def specDeferGuard {σ : Type v} (e : σ → σ) : Guard Unit σ :=
  guard () (fun u s => (u, e s))

/-- The statement form of `defer!($e)`: declare, in the current scope, the
guard `deferGuard e` as a local binding. -/
def deferStep {σ : Type v} (e : σ → σ) : ScopeStep Unit σ :=
  .declare () (fun _ s => ((), e s))

theorem runScope_defer_aux {σ : Type v} (es : List (σ → σ))
    (stack : List (Guard Unit σ)) (s : σ) :
    dropAll (runScopeAux (es.map deferStep) stack s).1
        (runScopeAux (es.map deferStep) stack s).2 =
      dropAll stack (es.foldr (fun e t => e t) s) := by
  induction es generalizing stack s with
  | nil => rfl
  | cons e es ih =>
      show dropAll (runScopeAux (es.map deferStep) (deferGuard e :: stack) s).1
          (runScopeAux (es.map deferStep) (deferGuard e :: stack) s).2 = _
      rw [ih (deferGuard e :: stack) s]
      rfl

/-- A guard whose cleanup closure can itself raise a failure: the closure
returns `Except E (T × σ)` instead of `T × σ`.  The guard's own structure is
unchanged. -/
structure GuardE (T : Type u) (σ : Type v) (E : Type w) where
  __dropfn : T → σ → Except E (T × σ)
  __value : T

/-- Constructor for a guard with a fallible cleanup. -/
def guardE {T : Type u} {σ : Type v} {E : Type w} (v : T)
    (dropfn : T → σ → Except E (T × σ)) : GuardE T σ E :=
  ⟨dropfn, v⟩

/-- The destructor body with a fallible closure: still exactly one call of
the closure, with no `catch` around it — whatever the closure returns,
success or failure, is the result. -/
def GuardE.drop {T : Type u} {σ : Type v} {E : Type w} (g : GuardE T σ E)
    (s : σ) : Except E (T × σ) :=
  g.__dropfn g.__value s

/-- Drop a stack of fallible guards in reverse declaration order; a failure
raised by one cleanup aborts the remaining drops and propagates outward. -/
def dropAllE {T : Type u} {σ : Type v} {E : Type w} :
    List (GuardE T σ E) → σ → Except E σ
  | [], s => .ok s
  | g :: rest, s =>
      match g.drop s with
      | .error e => .error e
      | .ok p => dropAllE rest p.2

theorem writesFold_all_read {T : Type u} (v : T) (ops : List (GuardOp T))
    (h : ∀ op ∈ ops, op = GuardOp.read) : writesFold v ops = v := by
  induction ops with
  | nil => rfl
  | cons op rest ih =>
      have hop := h op (List.mem_cons_self _ _)
      subst hop
      exact ih (fun op hop => h op (List.mem_cons_of_mem _ hop))

/-- C1: for every value `v` and cleanup action `f`, over a guard's whole
lifetime — construction from `(v, f)`, any sequence of reads and writes,
then destruction — the cleanup is invoked zero times before destruction and
exactly once in total, with mutable access to the held value: instrumenting
`f` with an invocation counter, the counter is still `0` after any access
sequence and equals `1` once the guard is destroyed.  Destruction is the
only event that triggers `f`, and `GuardOp` offers no cancel/defuse
operation, so a constructed guard's cleanup always runs at destruction. -/
theorem cleanup_invoked_exactly_once {T : Type u} {σ : Type v} (v : T)
    (f : T → σ → T × σ) (ops : List (GuardOp T)) (s : σ) :
    (runOps (guard v (counting f)) (s, 0) ops).2.2 = 0 ∧
    (lifetime v (counting f) ops (s, 0)).2.2 = 1 := by
  constructor
  · rw [runOps_state]
  · show ((runOps (guard v (counting f)) (s, 0) ops).1.drop
        (runOps (guard v (counting f)) (s, 0) ops).2).2.2 = 1
    rw [runOps_state]
    simp [Guard.drop, runOps_dropfn, guard, counting]

/-- C2: the cleanup observes the held value as it is at the moment of
destruction: running the whole lifetime with accesses `ops` hands the
cleanup exactly `writesFold v ops`, the result of every mutation performed
through the guard's write access — never the stale construction-time value
when a write happened. -/
theorem cleanup_sees_value_at_destruction {T : Type u} {σ : Type v} (v : T)
    (f : T → σ → T × σ) (ops : List (GuardOp T)) (s : σ) :
    lifetime v f ops s = f (writesFold v ops) s := by
  have h1 := runOps_state (guard v f) s ops
  have h2 := runOps_dropfn (guard v f) s ops
  have h3 := runOps_value (guard v f) s ops
  show (runOps (guard v f) s ops).1.__dropfn
      (runOps (guard v f) s ops).1.__value
      (runOps (guard v f) s ops).2 = f (writesFold v ops) s
  rw [h1, h2, h3]
  rfl

/-- C3: two guards declared in sequence in one scope are destroyed in
reverse declaration order: for guards A then B, scope exit runs B's cleanup
first and A's second; concretely, deferring an append of "A" and then an
append of "B" leaves the log equal to ["B", "A"] after scope exit. -/
theorem destruction_reverse_declaration_order :
    (∀ (T : Type u) (σ : Type v) (vA vB : T) (fA fB : T → σ → T × σ)
      (s : σ),
      runScope [ScopeStep.declare vA fA, ScopeStep.declare vB fB] s =
        (fA vA (fB vB s).2).2) ∧
    runScope
        [deferStep (fun l => l ++ ["A"]), deferStep (fun l => l ++ ["B"])]
        ([] : List String) = ["B", "A"] :=
  ⟨fun _ _ _ _ _ _ _ => rfl, rfl⟩

/-- C4: exiting the declaring scope via early return or via a propagating
panic runs the same cleanups as exiting normally at the same point — the
cleanup path is not conditioned on why the scope is exited (statements
after the exit never run) — and each guard declared before the exit has its
cleanup invoked exactly once, counted by instrumentation. -/
theorem exit_path_irrelevant_cleanup :
    (∀ (T : Type u) (σ : Type v) (pre post : List (ScopeStep T σ)) (s : σ),
      (∀ st ∈ pre, st.noExit = true) →
      runScope (pre ++ ScopeStep.ret :: post) s = runScope pre s ∧
      runScope (pre ++ ScopeStep.panicked :: post) s = runScope pre s) ∧
    (∀ (T : Type u) (σ : Type v) (pre : List (ScopeStep T σ))
      (ex : ScopeStep T (σ × Nat)) (v : T) (f : T → σ → T × σ) (s : σ),
      (∀ st ∈ pre, st.noExit = true) →
      (ex = ScopeStep.ret ∨ ex = ScopeStep.panicked) →
      (runScope
        (pre.map liftStep ++ [ScopeStep.declare v (counting f), ex])
        (s, 0)).2 = 1) := by
  constructor
  · intro T σ pre post s h
    constructor
    · show dropAll (runScopeAux (pre ++ ScopeStep.ret :: post) [] s).1
          (runScopeAux (pre ++ ScopeStep.ret :: post) [] s).2 = _
      rw [runScopeAux_append_noExit _ _ _ _ h]
      rfl
    · show dropAll (runScopeAux (pre ++ ScopeStep.panicked :: post) [] s).1
          (runScopeAux (pre ++ ScopeStep.panicked :: post) [] s).2 = _
      rw [runScopeAux_append_noExit _ _ _ _ h]
      rfl
  · intro T σ pre ex v f s h hex
    have hpre : ∀ st ∈ pre.map liftStep, st.noExit = true := by
      intro st hst
      rcases List.mem_map.mp hst with ⟨st0, hst0, rfl⟩
      rw [liftStep_noExit]
      exact h st0 hst0
    have hlift := runScopeAux_lift pre ([] : List (Guard T σ)) s 0
    simp only [List.map_nil] at hlift
    show (dropAll
        (runScopeAux
          (pre.map liftStep ++ [ScopeStep.declare v (counting f), ex]) []
          (s, 0)).1
        (runScopeAux
          (pre.map liftStep ++ [ScopeStep.declare v (counting f), ex]) []
          (s, 0)).2).2 = 1
    rw [runScopeAux_append_noExit _ _ _ _ hpre, hlift]
    rcases hex with rfl | rfl <;>
      simp [runScopeAux, dropAll, Guard.drop, guard, counting, dropAll_lift]

/-- Witness for C4 at a concrete scope body, exit point and cleanup. -/
theorem exit_path_irrelevant_cleanup_witness :
    (runScope
        (([ScopeStep.act (fun s => s + 1)] : List (ScopeStep Nat Nat)) ++
          ScopeStep.ret :: [ScopeStep.act (fun s => s + 5)]) 0 =
      runScope ([ScopeStep.act (fun s => s + 1)] : List (ScopeStep Nat Nat))
        0) ∧
    (runScope
        (([ScopeStep.act (fun s => s + 1)] :
            List (ScopeStep Nat Nat)).map liftStep ++
          [ScopeStep.declare (0 : Nat)
              (counting (fun t s => (t, s + 10))),
            ScopeStep.ret]) (0, 0)).2 = 1 :=
  ⟨(exit_path_irrelevant_cleanup.1 Nat Nat [ScopeStep.act (fun s => s + 1)]
      [ScopeStep.act (fun s => s + 5)] 0 (by
        intro st hst
        rcases List.mem_cons.mp hst with rfl | h
        · rfl
        · cases h)).1,
    exit_path_irrelevant_cleanup.2 Nat Nat [ScopeStep.act (fun s => s + 1)]
      ScopeStep.ret 0 (fun t s => (t, s + 10)) 0 (by
        intro st hst
        rcases List.mem_cons.mp hst with rfl | h
        · rfl
        · cases h) (Or.inl rfl)⟩

/-- C5: the `defer!` sugar is pure convenience over guard construction:
its expansion `deferGuard e` is exactly the guard the spec describes — unit
placeholder value, cleanup running `e` (`specDeferGuard`, written from the
spec's words); destroying it just runs `e`; and a scope of deferred actions
participates in the ordinary reverse-order destruction discipline, applying
the actions last-declared-first. -/
theorem defer_is_sugar_over_guard :
    (∀ (σ : Type v) (e : σ → σ), deferGuard e = specDeferGuard e) ∧
    (∀ (σ : Type v) (e : σ → σ) (s : σ),
      (deferGuard e).drop s = ((), e s)) ∧
    (∀ (σ : Type v) (es : List (σ → σ)) (s : σ),
      runScope (es.map deferStep) s = es.foldr (fun e t => e t) s) := by
  refine ⟨fun σ e => rfl, fun σ e s => rfl, fun σ es s => ?_⟩
  have h := runScope_defer_aux es [] s
  simpa [runScope, dropAll] using h

/-- C6: the guard mechanism itself cannot fail: for every type of value and
environment (unconstrained) construction succeeds and returns a guard
owning both the value and the cleanup; read access returns the held value,
write access mutates only the held value (leaving the cleanup in place),
and any number of interleaved accesses stay well-defined, the final read
returning the accumulated writes. -/
theorem guard_construction_and_access_total :
    ∀ (T : Type u) (σ : Type v) (v : T) (f : T → σ → T × σ),
      (guard v f).__value = v ∧
      (guard v f).__dropfn = f ∧
      (guard v f).deref = v ∧
      (∀ (g : Guard T σ) (m : T → T),
        (g.deref_mut m).deref = m g.deref ∧
        (g.deref_mut m).__dropfn = g.__dropfn) ∧
      (∀ (ops : List (GuardOp T)) (s : σ),
        (runOps (guard v f) s ops).1.deref = writesFold v ops) := by
  intro T σ v f
  refine ⟨rfl, rfl, rfl, fun g m => ⟨rfl, rfl⟩, fun ops s => ?_⟩
  simpa [Guard.deref, guard] using runOps_value (guard v f) s ops

/-- C7: if the cleanup raises a failure during its single invocation, the
guard does not intercept, suppress, or translate it: the destructor returns
the very same failure, and it propagates out of the scope-exit drop
sequence unchanged. -/
theorem cleanup_failure_propagates {T : Type u} {σ : Type v} {E : Type w}
    (v : T) (f : T → σ → Except E (T × σ)) (s : σ) (e : E)
    (rest : List (GuardE T σ E)) (h : f v s = Except.error e) :
    (guardE v f).drop s = Except.error e ∧
    dropAllE (guardE v f :: rest) s = Except.error e := by
  have hd : (guardE v f).drop s = Except.error e := h
  exact ⟨hd, by simp [dropAllE, hd]⟩

/-- Witness for C7 at a concrete failing cleanup. -/
theorem cleanup_failure_propagates_witness :
    (guardE (0 : Nat)
        (fun _ (_ : Unit) => Except.error "cleanup panicked")).drop () =
      Except.error "cleanup panicked" ∧
    dropAllE
        [guardE (0 : Nat)
          (fun _ (_ : Unit) => Except.error "cleanup panicked")] () =
      Except.error "cleanup panicked" :=
  cleanup_failure_propagates 0 _ () "cleanup panicked" [] rfl

/-- C8: a guard over integer state 0 with cleanup "set state to 1000" reads
as 0 immediately after construction (the cleanup has not run), and after
the declaring scope ends the observable state equals 1000 — both for the
value held in the guard and for an external cell set by a deferred
action. -/
theorem guard_integer_scenario :
    (guard (0 : Nat) (fun _ (s : Unit) => (1000, s))).deref = 0 ∧
    ((guard (0 : Nat) (fun _ (s : Unit) => (1000, s))).drop ()).1 = 1000 ∧
    (runScopeAux [deferStep (fun _ => (1000 : Nat))] [] (0 : Nat)).2 = 0 ∧
    runScope [deferStep (fun _ => (1000 : Nat))] (0 : Nat) = 1000 :=
  ⟨rfl, rfl, rfl, rfl⟩

/-- C9: dereferencing a fresh guard yields exactly the constructed value; a
read changes neither the guard nor the environment (it never invokes the
cleanup); accesses never touch the environment at all; after any access
sequence the read value is the last value written; and if every access was
a read, the read value is still the original `v`. -/
theorem read_access_pure {T : Type u} {σ : Type v} (v : T)
    (f : T → σ → T × σ) (s : σ) (ops : List (GuardOp T)) :
    (guard v f).deref = v ∧
    (∀ g : Guard T σ, GuardOp.apply g s GuardOp.read = (g, s)) ∧
    (runOps (guard v f) s ops).2 = s ∧
    (runOps (guard v f) s ops).1.deref = writesFold v ops ∧
    ((∀ op ∈ ops, op = GuardOp.read) →
      (runOps (guard v f) s ops).1.deref = v) := by
  refine ⟨rfl, fun g => rfl, runOps_state _ _ _, ?_, ?_⟩
  · simpa [Guard.deref, guard] using runOps_value (guard v f) s ops
  · intro h
    have h1 : (runOps (guard v f) s ops).1.deref = writesFold v ops := by
      simpa [Guard.deref, guard] using runOps_value (guard v f) s ops
    rw [h1, writesFold_all_read v ops h]

/-- Witness for C9 at a concrete guard and a reads-only access sequence. -/
theorem read_access_pure_witness :
    (runOps (guard (7 : Nat) (fun t (s : Unit) => (t, s))) ()
      [GuardOp.read, GuardOp.read]).1.deref = 7 :=
  (read_access_pure 7 (fun t (s : Unit) => (t, s)) ()
      [GuardOp.read, GuardOp.read]).2.2.2.2 (by
    intro op hop
    rcases List.mem_cons.mp hop with rfl | hop
    · rfl
    · rcases List.mem_cons.mp hop with rfl | hop
      · rfl
      · cases hop)

/-- C10: the `defer!` expansion binds its guard as a local (`_guard`), so
the guard sits on the scope's stack of locals from the declaration on, the
environment is untouched at the declaration itself and remains, for the
whole rest of the body, exactly what it would be had nothing been declared;
the deferred expression runs only when the scope is exited. -/
theorem defer_runs_only_at_scope_exit {σ : Type v} (e : σ → σ) (s : σ)
    (post : List (ScopeStep Unit σ)) :
    (runScopeAux [deferStep e] [] s).1 = [deferGuard e] ∧
    (runScopeAux [deferStep e] [] s).2 = s ∧
    (runScopeAux (deferStep e :: post) [] s).2 =
      (runScopeAux post [] s).2 ∧
    runScope [deferStep e] s = e s := by
  refine ⟨rfl, rfl, ?_, rfl⟩
  show (runScopeAux post [deferGuard e] s).2 = (runScopeAux post [] s).2
  exact runScopeAux_state_stack_irrel post [deferGuard e] [] s

end Scopeguard
